import Mathlib

/-!
Verification of the batch conversion orchestration engine of the debucon
repository (image pipeline: `convertImages` in the optimized ImageConverter;
audio pipeline: `convertAll` in `AudioConverter.tsx`), of the client-side
result naming (`convertSingleImage`), of the archive builder (`downloadAll`
via JSZip), of the image conversion HTTP endpoint (optimized
`app/api/convert/route.ts` variant), of the ffmpeg lazy initialization
(`ensureFFmpeg`), and of the quality form-field parsing.

The embedding is shallow: per-task mutable state becomes an indexed state
function `Nat → TaskState ρ`; the cooperative concurrency of a window is
modelled by an explicit list of finish events (the order in which the
window's conversions settle), quantified over all permutations of the
window; the external codec adapter (sharp HTTP call / ffmpeg.exec) is a
parameter `adapter : Nat → Except String ρ` giving each task's outcome.
-/

/-- Lifecycle status of one conversion task
(`'pending' | 'converting' | 'completed' | 'error'`). -/
inductive Status where
  | pending
  | converting
  | completed
  | error
deriving DecidableEq, Repr

/-- State of one task: the mutable fields of `FileProcessingState`
(`status`, `result?`, `error?`).  The `file` field is identified with the
task's stable index; `progress` is presentational only and not modelled. -/
structure TaskState (ρ : Type) where
  status : Status
  result : Option ρ
  error : Option String
deriving DecidableEq, Repr

/-- The whole task list, indexed by stable position. -/
def StateF (ρ : Type) : Type := Nat → TaskState ρ

/-- Step 1 of a run: `prev.map(s => ({ ...s, status: 'pending',
result: undefined, error: undefined }))`. -/
def resetAll {ρ : Type} (st : StateF ρ) : StateF ρ :=
  fun i => { st i with status := .pending, result := none, error := none }

/-- Marking a window: `prev.map((s, i) => indices.includes(i)
? { ...s, status: 'converting' } : s)`. -/
def markConverting {ρ : Type} (st : StateF ρ) (idxs : List Nat) : StateF ρ :=
  fun i => if i ∈ idxs then { st i with status := .converting } else st i

/-- Settling one task: on success `{ ...s, status: 'completed', result }`,
on failure `{ ...s, status: 'error', error: message }`. -/
def applyOutcome {ρ : Type} (out : Except String ρ) (t : TaskState ρ) : TaskState ρ :=
  match out with
  | .ok r => { t with status := .completed, result := some r }
  | .error m => { t with status := .error, error := some m }

/-- The state update performed when task `i`'s adapter call settles. -/
def finishOne {ρ : Type} (adapter : Nat → Except String ρ) (st : StateF ρ) (i : Nat) :
    StateF ρ :=
  fun j => if j = i then applyOutcome (adapter i) (st i) else st j

/-- All intermediate states produced while the tasks listed in `order`
settle one after the other. -/
def finishTrace {ρ : Type} (adapter : Nat → Except String ρ) (st : StateF ρ) :
    List Nat → List (StateF ρ)
  | [] => []
  | i :: rest =>
    finishOne adapter st i :: finishTrace adapter (finishOne adapter st i) rest

/-- State after a whole window `c` has run, its tasks settling in the
order `o`. -/
def windowFinal {ρ : Type} (adapter : Nat → Except String ρ) (st : StateF ρ)
    (c o : List Nat) : StateF ρ :=
  o.foldl (finishOne adapter) (markConverting st c)

/-- All instants of one window: the window is first marked `converting`
in a single state update, then its tasks settle in the order `o`. -/
def windowTrace {ρ : Type} (adapter : Nat → Except String ρ) (st : StateF ρ)
    (c o : List Nat) : List (StateF ρ) :=
  markConverting st c :: finishTrace adapter (markConverting st c) o

/-- Instants of the sequential window loop
(`for (const chunk of chunks) { ...; await Promise.all(...) }`):
each window fully settles before the next is marked. -/
def runTraceAux {ρ : Type} (adapter : Nat → Except String ρ) (st : StateF ρ) :
    List (List Nat × List Nat) → List (StateF ρ)
  | [] => []
  | (c, o) :: rest =>
    windowTrace adapter st c o ++
      runTraceAux adapter (windowFinal adapter st c o) rest

/-- Final task state of the window loop. -/
def runFinalAux {ρ : Type} (adapter : Nat → Except String ρ) (st : StateF ρ) :
    List (List Nat × List Nat) → StateF ρ
  | [] => st
  | (c, o) :: rest => runFinalAux adapter (windowFinal adapter st c o) rest

/-- Chunking loop `for (let i = 0; i < n; i += maxConcurrent)
chunks.push(slice(i, i + maxConcurrent))`.  Faithful for `W ≥ 1`
(with `W = 0` the source loop would never terminate). -/
def chunksOf {α : Type} (W : Nat) : List α → List (List α)
  | [] => []
  | x :: xs => (x :: xs.take (W - 1)) :: chunksOf W (xs.drop (W - 1))
termination_by l => l.length
decreasing_by simp [List.length_drop]; omega

/-- Every instant of a batch run of `N` tasks with window size `W`:
the reset state, then the window loop, window `k`'s tasks settling in
order `orders[k]`. -/
def convertAllTrace {ρ : Type} (adapter : Nat → Except String ρ) (N W : Nat)
    (st0 : StateF ρ) (orders : List (List Nat)) : List (StateF ρ) :=
  resetAll st0 ::
    runTraceAux adapter (resetAll st0) ((chunksOf W (List.range N)).zip orders)

/-- Final task state of a batch run. -/
def convertAllFinal {ρ : Type} (adapter : Nat → Except String ρ) (N W : Nat)
    (st0 : StateF ρ) (orders : List (List Nat)) : StateF ρ :=
  runFinalAux adapter (resetAll st0) ((chunksOf W (List.range N)).zip orders)

/-- The aggregate result list: per window, `Promise.all` yields the
settled values in the window's submission order, nulls (failures) are
filtered out, and the survivors are appended
(`allResults.push(...validResults)`). -/
def allResults {ρ : Type} (adapter : Nat → Except String ρ) (N W : Nat) : List ρ :=
  ((chunksOf W (List.range N)).map
    (fun c => c.filterMap (fun i => (adapter i).toOption))).flatten

/-- Number of tasks in the `Converting` state among the batch's `N` tasks. -/
def countConverting {ρ : Type} (N : Nat) (st : StateF ρ) : Nat :=
  (List.range N).countP (fun i => decide ((st i).status = .converting))

/-- A task state is terminal when it is `Completed` or `Error`. -/
def isTerminal {ρ : Type} (t : TaskState ρ) : Prop :=
  t.status = .completed ∨ t.status = .error

theorem chunksOf_flatten {α : Type} (W : Nat) (l : List α) :
    (chunksOf W l).flatten = l := by
  induction l using chunksOf.induct (W := W) with
  | case1 => simp [chunksOf]
  | case2 x xs ih =>
    rw [chunksOf]
    simp [ih]

theorem length_le_of_mem_chunksOf {α : Type} {W : Nat} (hW : 1 ≤ W) {l : List α}
    {c : List α} (hc : c ∈ chunksOf W l) : c.length ≤ W := by
  induction l using chunksOf.induct (W := W) with
  | case1 => simp [chunksOf] at hc
  | case2 x xs ih =>
    rw [chunksOf] at hc
    rcases List.mem_cons.1 hc with h | h
    · subst h
      simp [List.length_take]
      omega
    · exact ih h

theorem applyOutcome_status {ρ : Type} (out : Except String ρ) (t : TaskState ρ) :
    (applyOutcome out t).status = .completed ∨ (applyOutcome out t).status = .error := by
  cases out <;> simp [applyOutcome]

theorem markConverting_of_mem {ρ : Type} (st : StateF ρ) {idxs : List Nat} {i : Nat}
    (h : i ∈ idxs) : markConverting st idxs i = { st i with status := .converting } := by
  simp [markConverting, h]

theorem markConverting_of_not_mem {ρ : Type} (st : StateF ρ) {idxs : List Nat} {i : Nat}
    (h : i ∉ idxs) : markConverting st idxs i = st i := by
  simp [markConverting, h]

theorem finishOne_of_ne {ρ : Type} (adapter : Nat → Except String ρ) (st : StateF ρ)
    {i j : Nat} (h : j ≠ i) : finishOne adapter st i j = st j := by
  simp [finishOne, h]

theorem finishTrace_of_not_mem {ρ : Type} (adapter : Nat → Except String ρ)
    {j : Nat} : ∀ (o : List Nat) (st : StateF ρ), j ∉ o →
    ∀ s ∈ finishTrace adapter st o, s j = st j := by
  intro o
  induction o with
  | nil => intro st _ s hs; simp [finishTrace] at hs
  | cons i rest ih =>
    intro st hj s hs
    have hji : j ≠ i := fun h => hj (h ▸ List.mem_cons_self i rest)
    have hjr : j ∉ rest := fun h => hj (List.mem_cons_of_mem i h)
    rcases List.mem_cons.1 hs with h | h
    · subst h; exact finishOne_of_ne adapter st hji
    · rw [ih (finishOne adapter st i) hjr s h]
      exact finishOne_of_ne adapter st hji

theorem finishTrace_converting {ρ : Type} (adapter : Nat → Except String ρ)
    {j : Nat} : ∀ (o : List Nat) (st : StateF ρ), ∀ s ∈ finishTrace adapter st o,
    (s j).status = .converting → (st j).status = .converting := by
  intro o
  induction o with
  | nil => intro st s hs; simp [finishTrace] at hs
  | cons i rest ih =>
    intro st s hs hconv
    have key : ∀ t : StateF ρ, t = finishOne adapter st i →
        (t j).status = .converting → (st j).status = .converting := by
      intro t ht hc
      subst ht
      by_cases hji : j = i
      · subst hji
        have he : finishOne adapter st j j = applyOutcome (adapter j) (st j) := by
          simp [finishOne]
        rw [he] at hc
        rcases applyOutcome_status (adapter j) (st j) with h | h <;>
          rw [h] at hc <;> exact Status.noConfusion hc
      · rwa [finishOne_of_ne adapter st hji] at hc
    rcases List.mem_cons.1 hs with h | h
    · exact key s h hconv
    · exact key _ rfl (ih (finishOne adapter st i) s h hconv)

theorem foldl_finishOne_of_not_mem {ρ : Type} (adapter : Nat → Except String ρ)
    {j : Nat} : ∀ (o : List Nat) (st : StateF ρ), j ∉ o →
    o.foldl (finishOne adapter) st j = st j := by
  intro o
  induction o with
  | nil => intro st _; rfl
  | cons i rest ih =>
    intro st hj
    have hji : j ≠ i := fun h => hj (h ▸ List.mem_cons_self i rest)
    have hjr : j ∉ rest := fun h => hj (List.mem_cons_of_mem i h)
    rw [List.foldl_cons, ih (finishOne adapter st i) hjr]
    exact finishOne_of_ne adapter st hji

theorem foldl_finishOne_of_mem {ρ : Type} (adapter : Nat → Except String ρ)
    {j : Nat} : ∀ (o : List Nat) (st : StateF ρ), o.Nodup → j ∈ o →
    o.foldl (finishOne adapter) st j = applyOutcome (adapter j) (st j) := by
  intro o
  induction o with
  | nil => intro st _ hj; simp at hj
  | cons i rest ih =>
    intro st hnd hj
    rcases List.mem_cons.1 hj with h | h
    · subst h
      have hjr : j ∉ rest := (List.nodup_cons.1 hnd).1
      rw [List.foldl_cons, foldl_finishOne_of_not_mem adapter rest _ hjr]
      simp [finishOne]
    · have hji : j ≠ i := by
        rintro rfl
        exact (List.nodup_cons.1 hnd).1 h
      rw [List.foldl_cons, ih (finishOne adapter st i) (List.nodup_cons.1 hnd).2 h,
        finishOne_of_ne adapter st hji]

theorem windowTrace_of_not_mem {ρ : Type} (adapter : Nat → Except String ρ)
    (st : StateF ρ) {c o : List Nat} (hsub : o ⊆ c) {j : Nat} (hj : j ∉ c) :
    ∀ s ∈ windowTrace adapter st c o, s j = st j := by
  intro s hs
  have hjo : j ∉ o := fun h => hj (hsub h)
  have hmark : markConverting st c j = st j := markConverting_of_not_mem st hj
  rcases List.mem_cons.1 hs with h | h
  · rw [h, hmark]
  · rw [finishTrace_of_not_mem adapter o (markConverting st c) hjo s h, hmark]

theorem windowTrace_converting {ρ : Type} (adapter : Nat → Except String ρ)
    (st : StateF ρ) {c o : List Nat} {j : Nat} :
    ∀ s ∈ windowTrace adapter st c o, (s j).status = .converting →
      j ∈ c ∨ (st j).status = .converting := by
  intro s hs hconv
  have key : ((markConverting st c) j).status = .converting →
      j ∈ c ∨ (st j).status = .converting := by
    intro h
    by_cases hjc : j ∈ c
    · exact Or.inl hjc
    · rw [markConverting_of_not_mem st hjc] at h
      exact Or.inr h
  rcases List.mem_cons.1 hs with h | h
  · exact key (h ▸ hconv)
  · exact key (finishTrace_converting adapter o (markConverting st c) s h hconv)

theorem windowFinal_of_mem {ρ : Type} (adapter : Nat → Except String ρ)
    (st : StateF ρ) {c o : List Nat} (hperm : o.Perm c) (hnd : c.Nodup)
    {j : Nat} (hj : j ∈ c) :
    windowFinal adapter st c o j =
      applyOutcome (adapter j) { st j with status := .converting } := by
  have hjo : j ∈ o := hperm.mem_iff.2 hj
  have hond : o.Nodup := hperm.nodup_iff.2 hnd
  rw [windowFinal, foldl_finishOne_of_mem adapter o _ hond hjo,
    markConverting_of_mem st hj]

theorem windowFinal_of_not_mem {ρ : Type} (adapter : Nat → Except String ρ)
    (st : StateF ρ) {c o : List Nat} (hperm : o.Perm c) {j : Nat} (hj : j ∉ c) :
    windowFinal adapter st c o j = st j := by
  have hjo : j ∉ o := fun h => hj (hperm.mem_iff.1 h)
  rw [windowFinal, foldl_finishOne_of_not_mem adapter o _ hjo,
    markConverting_of_not_mem st hj]

/-- Shape of every instant of the window loop: the windows split into
fully-settled ones (`pre`), the active one (`cur`) — the only place a
`Converting` status can live — and untouched future ones (`post`). -/
theorem runTraceAux_shape {ρ : Type} (adapter : Nat → Except String ρ) :
    ∀ (cs os : List (List Nat)) (st : StateF ρ),
    List.Forall₂ (fun o c => o.Perm c) os cs →
    cs.flatten.Nodup →
    (∀ i, (st i).status ≠ .converting) →
    (∀ j ∈ cs.flatten, (st j).status = .pending) →
    ∀ s ∈ runTraceAux adapter st (cs.zip os),
      ∃ pre cur post, cs = pre ++ cur :: post ∧
        (∀ j ∈ pre.flatten, isTerminal (s j)) ∧
        (∀ j ∈ post.flatten, (s j).status = .pending) ∧
        (∀ j, (s j).status = .converting → j ∈ cur) ∧
        (∀ j, j ∉ cs.flatten → s j = st j) := by
  intro cs
  induction cs with
  | nil =>
    intro os st _ _ _ _ s hs
    simp [runTraceAux] at hs
  | cons c cs' ih =>
    intro os st hperm hnodup hnoconv hpend s hs
    cases hperm with
    | cons hoc hperm2 =>
      rename_i o os'
      have hnd : (c ++ cs'.flatten).Nodup := by simpa using hnodup
      have hcnd : c.Nodup := hnd.of_append_left
      have hnd' : cs'.flatten.Nodup := hnd.of_append_right
      have hdisj : ∀ j ∈ c, j ∉ cs'.flatten :=
        fun j hj hj' => List.disjoint_of_nodup_append hnd hj hj'
      rw [List.zip_cons_cons, runTraceAux, List.mem_append] at hs
      rcases hs with h | h
      · refine ⟨[], c, cs', by simp, by simp, ?_, ?_, ?_⟩
        · intro j hj
          have hjc : j ∉ c := fun hc => hdisj j hc hj
          rw [windowTrace_of_not_mem adapter st hoc.subset hjc s h]
          exact hpend j (by simp [hj])
        · intro j hconv
          rcases windowTrace_converting adapter st s h hconv with hc | hc
          · exact hc
          · exact absurd hc (hnoconv j)
        · intro j hj
          have hjc : j ∉ c := fun hc => hj (by simp [hc])
          exact windowTrace_of_not_mem adapter st hoc.subset hjc s h
      · have hnoconv2 : ∀ i, ((windowFinal adapter st c o) i).status ≠ .converting := by
          intro i
          by_cases hic : i ∈ c
          · rw [windowFinal_of_mem adapter st hoc hcnd hic]
            rcases applyOutcome_status (adapter i) { st i with status := .converting }
              with h2 | h2 <;> rw [h2] <;> simp
          · rw [windowFinal_of_not_mem adapter st hoc hic]
            exact hnoconv i
        have hpend2 : ∀ j ∈ cs'.flatten,
            ((windowFinal adapter st c o) j).status = .pending := by
          intro j hj
          have hjc : j ∉ c := fun hc => hdisj j hc hj
          rw [windowFinal_of_not_mem adapter st hoc hjc]
          exact hpend j (by simp [hj])
        obtain ⟨pre, cur, post, hcs, hpre, hpost, hconv, huntouched⟩ :=
          ih os' (windowFinal adapter st c o) hperm2 hnd' hnoconv2 hpend2 s h
        refine ⟨c :: pre, cur, post, by rw [hcs]; rfl, ?_, hpost, hconv, ?_⟩
        · intro j hj
          rw [List.flatten_cons, List.mem_append] at hj
          rcases hj with hj | hj
          · have hj' : j ∉ cs'.flatten := hdisj j hj
            rw [huntouched j hj', windowFinal_of_mem adapter st hoc hcnd hj]
            exact applyOutcome_status (adapter j) _
          · exact hpre j hj
        · intro j hj
          have hjc : j ∉ c := fun hc => hj (by simp [hc])
          have hj' : j ∉ cs'.flatten := fun hc => hj (by simp [hc])
          rw [huntouched j hj', windowFinal_of_not_mem adapter st hoc hjc]

theorem runFinalAux_of_not_mem {ρ : Type} (adapter : Nat → Except String ρ) :
    ∀ (cs os : List (List Nat)) (st : StateF ρ),
    List.Forall₂ (fun o c => o.Perm c) os cs →
    ∀ j, j ∉ cs.flatten → runFinalAux adapter st (cs.zip os) j = st j := by
  intro cs
  induction cs with
  | nil => intro os st _ j _; cases os <;> rfl
  | cons c cs' ih =>
    intro os st hperm j hj
    cases hperm with
    | cons hoc hperm2 =>
      rename_i o os'
      have hjc : j ∉ c := fun h => hj (by simp [h])
      have hjr : j ∉ cs'.flatten := fun h => hj (by simp [h])
      rw [List.zip_cons_cons, runFinalAux,
        ih os' (windowFinal adapter st c o) hperm2 j hjr,
        windowFinal_of_not_mem adapter st hoc hjc]

theorem runFinalAux_of_mem {ρ : Type} (adapter : Nat → Except String ρ) :
    ∀ (cs os : List (List Nat)) (st : StateF ρ),
    List.Forall₂ (fun o c => o.Perm c) os cs →
    cs.flatten.Nodup →
    ∀ j ∈ cs.flatten, runFinalAux adapter st (cs.zip os) j =
      applyOutcome (adapter j) { st j with status := .converting } := by
  intro cs
  induction cs with
  | nil => intro os st _ _ j hj; simp at hj
  | cons c cs' ih =>
    intro os st hperm hnodup j hj
    cases hperm with
    | cons hoc hperm2 =>
      rename_i o os'
      have hnd : (c ++ cs'.flatten).Nodup := by simpa using hnodup
      have hcnd : c.Nodup := hnd.of_append_left
      have hnd' : cs'.flatten.Nodup := hnd.of_append_right
      rw [List.flatten_cons, List.mem_append] at hj
      rw [List.zip_cons_cons, runFinalAux]
      rcases hj with hj | hj
      · have hjr : j ∉ cs'.flatten :=
          fun h => List.disjoint_of_nodup_append hnd hj h
        rw [runFinalAux_of_not_mem adapter cs' os' _ hperm2 j hjr,
          windowFinal_of_mem adapter st hoc hcnd hj]
      · have hjc : j ∉ c :=
          fun h => List.disjoint_of_nodup_append hnd h hj
        rw [ih os' (windowFinal adapter st c o) hperm2 hnd' j hj,
          windowFinal_of_not_mem adapter st hoc hjc]

/-- Value of the final state at each task of the batch: the task's reset
state, marked converting, then settled with its adapter outcome. -/
theorem convertAllFinal_at {ρ : Type} (adapter : Nat → Except String ρ)
    {N W : Nat} (st0 : StateF ρ) {orders : List (List Nat)}
    (horders : List.Forall₂ (fun o c => o.Perm c) orders (chunksOf W (List.range N)))
    {i : Nat} (hi : i < N) :
    convertAllFinal adapter N W st0 orders i =
      applyOutcome (adapter i) { status := .converting, result := none, error := none } := by
  have hmem : i ∈ (chunksOf W (List.range N)).flatten := by
    rw [chunksOf_flatten]
    exact List.mem_range.2 hi
  have hnd : (chunksOf W (List.range N)).flatten.Nodup := by
    rw [chunksOf_flatten]
    exact List.nodup_range N
  rw [convertAllFinal,
    runFinalAux_of_mem adapter _ orders (resetAll st0) horders hnd i hmem]
  rfl

/-- C1: during a run of N tasks with window size W (≥ 1), at every instant
the number of tasks in the Converting state is at most W, and the windows
are strictly sequential: whenever some task of window k+1 has left Pending,
every task of window k is already terminal (Completed or Error).  Holds for
every interleaving (settle order) of each window's conversions. -/
theorem c1_concurrency_bound_and_sequential_windows {ρ : Type}
    (adapter : Nat → Except String ρ) (N W : Nat) (st0 : StateF ρ)
    (orders : List (List Nat)) (hW : 1 ≤ W)
    (horders : List.Forall₂ (fun o c => o.Perm c) orders (chunksOf W (List.range N))) :
    ∀ s ∈ convertAllTrace adapter N W st0 orders,
      countConverting N s ≤ W ∧
      (∀ k, (hk : k + 1 < (chunksOf W (List.range N)).length) →
        (∃ i ∈ (chunksOf W (List.range N))[k + 1], (s i).status ≠ .pending) →
        ∀ j ∈ (chunksOf W (List.range N))[k], isTerminal (s j)) := by
  intro s hs
  have hnd : (chunksOf W (List.range N)).flatten.Nodup := by
    rw [chunksOf_flatten]
    exact List.nodup_range N
  rcases List.mem_cons.1 hs with h | h
  · subst h
    constructor
    · have hz : countConverting N (resetAll st0) = 0 := by
        rw [countConverting, List.countP_eq_zero]
        intro i _
        simp [resetAll]
      omega
    · intro k hk hex j hj
      obtain ⟨i, hi, hnp⟩ := hex
      exact absurd (rfl : (resetAll st0 i).status = .pending) hnp
  · have hnoconv : ∀ i, ((resetAll st0) i).status ≠ .converting := by
      intro i h2
      simp [resetAll] at h2
    have hpend : ∀ j ∈ (chunksOf W (List.range N)).flatten,
        ((resetAll st0) j).status = .pending := by
      intro j _
      rfl
    obtain ⟨pre, cur, post, hcs, hpre, hpost, hconv, _⟩ :=
      runTraceAux_shape adapter (chunksOf W (List.range N)) orders (resetAll st0)
        horders hnd hnoconv hpend s h
    constructor
    · have hfil : ∀ x ∈ (List.range N).filter
          (fun i => decide ((s i).status = .converting)), x ∈ cur := by
        intro x hx
        exact hconv x (of_decide_eq_true (List.mem_filter.1 hx).2)
      have hfnd : ((List.range N).filter
          (fun i => decide ((s i).status = .converting))).Nodup :=
        (List.nodup_range N).filter _
      have hsub := (hfnd.subperm hfil).length_le
      have hcur : cur ∈ chunksOf W (List.range N) := by
        rw [hcs]
        exact List.mem_append_right pre (List.mem_cons_self cur post)
      have hlen := length_le_of_mem_chunksOf hW hcur
      rw [countConverting, List.countP_eq_length_filter]
      omega
    · intro k hk hex j hj
      obtain ⟨i, hi, hnp⟩ := hex
      have hlen : (chunksOf W (List.range N)).length =
          pre.length + (post.length + 1) := by
        rw [hcs]
        simp
      by_cases hkm : k + 1 ≤ pre.length
      · have hk2 : k < pre.length := by omega
        have hq : (chunksOf W (List.range N))[k]? = some pre[k] := by
          rw [hcs, List.getElem?_append_left hk2, List.getElem?_eq_getElem hk2]
        have hq2 : (chunksOf W (List.range N))[k]? =
            some (chunksOf W (List.range N))[k] :=
          List.getElem?_eq_getElem (by omega)
        have heq : (chunksOf W (List.range N))[k] = pre[k] := by
          rw [hq] at hq2
          exact (Option.some.inj hq2).symm
        rw [heq] at hj
        exact hpre j (List.mem_flatten.2 ⟨pre[k], List.getElem_mem hk2, hj⟩)
      · exfalso
        have hbound : k - pre.length < post.length := by omega
        have hq : (chunksOf W (List.range N))[k + 1]? =
            some post[k - pre.length] := by
          rw [hcs, List.getElem?_append_right (by omega : pre.length ≤ k + 1)]
          have hd : k + 1 - pre.length = (k - pre.length) + 1 := by omega
          rw [hd, List.getElem?_cons_succ, List.getElem?_eq_getElem hbound]
        have hq2 : (chunksOf W (List.range N))[k + 1]? =
            some (chunksOf W (List.range N))[k + 1] :=
          List.getElem?_eq_getElem (by omega)
        have heq : (chunksOf W (List.range N))[k + 1] = post[k - pre.length] := by
          rw [hq] at hq2
          exact (Option.some.inj hq2).symm
        rw [heq] at hi
        exact hnp (hpost i
          (List.mem_flatten.2 ⟨post[k - pre.length], List.getElem_mem hbound, hi⟩))

/-- C2: after the run completes every one of the N tasks is terminal —
the Completed count plus the Error count is N, and no task is left
Pending or Converting. -/
theorem c2_all_tasks_terminal {ρ : Type} (adapter : Nat → Except String ρ)
    (N W : Nat) (st0 : StateF ρ) (orders : List (List Nat)) (hW : 1 ≤ W)
    (horders : List.Forall₂ (fun o c => o.Perm c) orders (chunksOf W (List.range N))) :
    (∀ i < N, isTerminal (convertAllFinal adapter N W st0 orders i)) ∧
    (List.range N).countP
        (fun i => decide ((convertAllFinal adapter N W st0 orders i).status = .completed)) +
      (List.range N).countP
        (fun i => decide ((convertAllFinal adapter N W st0 orders i).status = .error)) = N ∧
    (∀ i < N, (convertAllFinal adapter N W st0 orders i).status ≠ .pending ∧
      (convertAllFinal adapter N W st0 orders i).status ≠ .converting) := by
  have hterm : ∀ i < N, isTerminal (convertAllFinal adapter N W st0 orders i) := by
    intro i hi
    rw [convertAllFinal_at adapter st0 horders hi]
    exact applyOutcome_status (adapter i) _
  refine ⟨hterm, ?_, ?_⟩
  · have hsplit := List.length_eq_countP_add_countP
      (fun i => decide ((convertAllFinal adapter N W st0 orders i).status = .completed))
      (List.range N)
    rw [List.length_range] at hsplit
    have hcongr : (List.range N).countP
        (fun a => decide (¬ (decide ((convertAllFinal adapter N W st0 orders a).status
          = .completed) = true))) =
        (List.range N).countP
        (fun i => decide ((convertAllFinal adapter N W st0 orders i).status = .error)) := by
      apply List.countP_congr
      intro i hi
      have hi2 : i < N := List.mem_range.1 hi
      rcases hterm i hi2 with h | h <;> simp [h]
    omega
  · intro i hi
    rcases hterm i hi with h | h <;> rw [h] <;> simp

/-- Witness inputs for the orchestrator claims: a clean 3-task batch and
two concrete adapters (one always succeeding, one failing only task 1). -/
def cleanState : StateF String :=
  fun _ => { status := .pending, result := none, error := none }

def adapterOkC : Nat → Except String String :=
  fun _ => .ok ("done")

def adapterFail1 : Nat → Except String String :=
  fun i => if i = 1 then .error ("boom") else .ok ("done")

theorem chunksOf_two_range_three : chunksOf 2 (List.range 3) = [[0, 1], [2]] := by
  have h1 : List.range 3 = [0, 1, 2] := rfl
  rw [h1]
  simp [chunksOf]

theorem orders_perm_two_range_three :
    List.Forall₂ (fun (o c : List Nat) => o.Perm c) [[1, 0], [2]]
      (chunksOf 2 (List.range 3)) := by
  rw [chunksOf_two_range_three]
  exact .cons (by decide) (.cons (by decide) .nil)

/-- Witness for C1: the 3-task batch run with window size 2, settle order
[1, 0] then [2]; the bound is checked at the initial instant of the trace. -/
theorem c1_witness :
    countConverting 3 (resetAll cleanState) ≤ 2 ∧
    (∀ k, (hk : k + 1 < (chunksOf 2 (List.range 3)).length) →
      (∃ i ∈ (chunksOf 2 (List.range 3))[k + 1],
        ((resetAll cleanState) i).status ≠ .pending) →
      ∀ j ∈ (chunksOf 2 (List.range 3))[k], isTerminal ((resetAll cleanState) j)) :=
  c1_concurrency_bound_and_sequential_windows adapterFail1 3 2 cleanState
    [[1, 0], [2]] (by decide) orders_perm_two_range_three
    (resetAll cleanState) (List.mem_cons_self _ _)

/-- Witness for C2: on the 3-task batch with task 1 failing, the final
Completed count plus Error count is 3. -/
theorem c2_witness :
    (List.range 3).countP
        (fun i => decide ((convertAllFinal adapterFail1 3 2 cleanState
          [[1, 0], [2]] i).status = .completed)) +
      (List.range 3).countP
        (fun i => decide ((convertAllFinal adapterFail1 3 2 cleanState
          [[1, 0], [2]] i).status = .error)) = 3 :=
  (c2_all_tasks_terminal adapterFail1 3 2 cleanState [[1, 0], [2]] (by decide)
    orders_perm_two_range_three).2.1

theorem flatten_map_filterMap {α β : Type} (f : α → Option β) :
    ∀ cs : List (List α),
    (cs.map (fun c => c.filterMap f)).flatten = cs.flatten.filterMap f := by
  intro cs
  induction cs with
  | nil => rfl
  | cons c cs' ih =>
    rw [List.map_cons, List.flatten_cons, List.flatten_cons,
      List.filterMap_append, ih]

/-- C3: the aggregate result list contains exactly the successful tasks'
results in original submission order — it equals the in-order filter of
the adapter outcomes, and equally the in-order collection of the final
states' result fields — independent of the settle orders within windows. -/
theorem c3_results_preserve_submission_order {ρ : Type}
    (adapter : Nat → Except String ρ) (N W : Nat) (st0 : StateF ρ)
    (orders : List (List Nat)) (hW : 1 ≤ W)
    (horders : List.Forall₂ (fun o c => o.Perm c) orders (chunksOf W (List.range N))) :
    allResults adapter N W =
      (List.range N).filterMap (fun i => (adapter i).toOption) ∧
    allResults adapter N W =
      (List.range N).filterMap
        (fun i => (convertAllFinal adapter N W st0 orders i).result) := by
  have h1 : allResults adapter N W =
      (List.range N).filterMap (fun i => (adapter i).toOption) := by
    rw [allResults, flatten_map_filterMap, chunksOf_flatten]
  refine ⟨h1, ?_⟩
  rw [h1]
  apply List.filterMap_congr
  intro i hi
  rw [convertAllFinal_at adapter st0 horders (List.mem_range.1 hi)]
  cases adapter i <;> rfl

/-- Witness for C3: on the 3-task batch with task 1 failing, run with
window size 2 and settle order [1, 0], [2], the aggregate results equal
the submission-ordered successes. -/
theorem c3_witness :
    allResults adapterFail1 3 2 =
      (List.range 3).filterMap (fun i => (adapterFail1 i).toOption) :=
  (c3_results_preserve_submission_order adapterFail1 3 2 cleanState
    [[1, 0], [2]] (by decide) orders_perm_two_range_three).1

/-- C4: a task ends in Error exactly when its own adapter call failed (and
the failure message is recorded on that task), and ends Completed exactly
when its adapter call succeeded — so one task's failure never prevents any
other task from completing. -/
theorem c4_failure_isolation {ρ : Type} (adapter : Nat → Except String ρ)
    (N W : Nat) (st0 : StateF ρ) (orders : List (List Nat)) (hW : 1 ≤ W)
    (horders : List.Forall₂ (fun o c => o.Perm c) orders (chunksOf W (List.range N))) :
    ∀ i < N,
      ((convertAllFinal adapter N W st0 orders i).status = .error ↔
        ∃ m, adapter i = .error m) ∧
      ((convertAllFinal adapter N W st0 orders i).status = .completed ↔
        ∃ r, adapter i = .ok r) ∧
      (∀ m, adapter i = .error m →
        (convertAllFinal adapter N W st0 orders i).error = some m) ∧
      (∀ r, adapter i = .ok r →
        (convertAllFinal adapter N W st0 orders i).result = some r) := by
  intro i hi
  rw [convertAllFinal_at adapter st0 horders hi]
  cases hout : adapter i with
  | ok r =>
    refine ⟨?_, ?_, ?_, ?_⟩
    · simp [applyOutcome]
    · simp [applyOutcome]
    · intro m hm; cases hm
    · intro r2 hr2
      rw [Except.ok.inj hr2]
      simp [applyOutcome]
  | error m =>
    refine ⟨?_, ?_, ?_, ?_⟩
    · simp [applyOutcome]
    · simp [applyOutcome]
    · intro m2 hm2
      rw [Except.error.inj hm2]
      simp [applyOutcome]
    · intro r hr; cases hr

/-- Witness for C4: in the 3-task batch where only task 1's adapter call
fails, tasks 0 and 2 end Completed and task 1 ends Error with its message. -/
theorem c4_witness :
    (convertAllFinal adapterFail1 3 2 cleanState [[1, 0], [2]] 0).status = .completed ∧
    (convertAllFinal adapterFail1 3 2 cleanState [[1, 0], [2]] 1).status = .error ∧
    (convertAllFinal adapterFail1 3 2 cleanState [[1, 0], [2]] 2).status = .completed ∧
    (convertAllFinal adapterFail1 3 2 cleanState [[1, 0], [2]] 1).error = some ("boom") := by
  have h0 := c4_failure_isolation adapterFail1 3 2 cleanState [[1, 0], [2]]
    (by decide) orders_perm_two_range_three 0 (by decide)
  have h1 := c4_failure_isolation adapterFail1 3 2 cleanState [[1, 0], [2]]
    (by decide) orders_perm_two_range_three 1 (by decide)
  have h2 := c4_failure_isolation adapterFail1 3 2 cleanState [[1, 0], [2]]
    (by decide) orders_perm_two_range_three 2 (by decide)
  refine ⟨?_, ?_, ?_, ?_⟩
  · exact h0.2.1.mpr ⟨("done"), rfl⟩
  · exact h1.1.mpr ⟨("boom"), rfl⟩
  · exact h2.2.1.mpr ⟨("done"), rfl⟩
  · exact h1.2.2.1 ("boom") rfl

/-- Evolution of the `conversionResults` cell during a run: its prior
value, the clearing `setConversionResults([])` at run start, and the final
`setConversionResults(allResults)` — the new value replaces, never merges. -/
def resultsHistory {ρ : Type} (adapter : Nat → Except String ρ) (N W : Nat)
    (prior : List ρ) : List (List ρ) :=
  [prior, [], allResults adapter N W]

/-- C5: a re-run is idempotent with respect to stale state — the first
instant of every run is the fully reset state (all tasks Pending, results
and errors cleared), the run's outcome does not depend on the task states
left by a prior run, and the final aggregate results replace the prior
results rather than merging with them. -/
theorem c5_rerun_resets_state {ρ : Type} (adapter : Nat → Except String ρ)
    (N W : Nat) (st0 st1 : StateF ρ) (orders : List (List Nat)) (R0 R1 : List ρ) :
    (convertAllTrace adapter N W st0 orders).head? = some (resetAll st0) ∧
    resetAll st0 = (fun _ => { status := .pending, result := none, error := none }) ∧
    convertAllFinal adapter N W st0 orders = convertAllFinal adapter N W st1 orders ∧
    convertAllTrace adapter N W st0 orders = convertAllTrace adapter N W st1 orders ∧
    (resultsHistory adapter N W R0).getLast? = some (allResults adapter N W) ∧
    (resultsHistory adapter N W R0).getLast? = (resultsHistory adapter N W R1).getLast? := by
  have hreset : resetAll st0 = resetAll st1 := funext fun i => rfl
  refine ⟨rfl, funext fun i => rfl, ?_, ?_, ?_, ?_⟩
  · rw [convertAllFinal, convertAllFinal, hreset]
  · rw [convertAllTrace, convertAllTrace, hreset]
  · rfl
  · rfl

/-- Everything before the first dot of a file name: JS
`fileName.split('.')[0]` as used in `convertSingleImage`. -/
def firstDotStem (name : String) : String :=
  String.mk (name.data.takeWhile (fun c => c ≠ '.'))

/-- The client-side output name built by `convertSingleImage`:
`${fileState.file.name.split('.')[0]}.${targetFormat}` — it uses the
requested target format, not the format the server actually produced. -/
def imageClientConvertedName (fileName targetFormat : String) : String :=
  firstDotStem fileName ++ "." ++ targetFormat

/-- Characters before the last dot of a character list, when a dot exists. -/
def lastDotStemAux : List Char → Option (List Char)
  | [] => none
  | c :: cs =>
    match lastDotStemAux cs with
    | some rest => some (c :: rest)
    | none => if c = '.' then some [] else none

/-- The server-side stem: JS
`originalName.substring(0, originalName.lastIndexOf('.')) || originalName`. -/
def stemLastDot (name : String) : String :=
  match lastDotStemAux name.data with
  | some stem => if stem = [] then name else String.mk stem
  | none => name

/-- Lower-casing as used for the route's `targetFormat.toLowerCase()`
switch scrutinee. -/
def lowerString (s : String) : String :=
  String.mk (s.data.map Char.toLower)

/-- The `actualFormat` variable of the conversion route: it starts as the
requested format and is overwritten with png for the formats sharp cannot
write (bmp, gif, psd, ico in the optimized route); `none` encodes the
`default` branch (unsupported target format). -/
def actualFormatOf (target : String) : Option String :=
  match lowerString target with
  | "png" | "jpeg" | "jpg" | "webp" | "avif" | "tiff" | "tif" | "heic" | "heif" =>
    some target
  | "bmp" | "gif" | "psd" | "ico" => some ("png")
  | _ => none

/-- The route's `newFilename`: stem of the original name plus the actual
output format. -/
def routeFilename (origName actual : String) : String :=
  stemLastDot origName ++ "." ++ actual

/-- Boolean suffix test on strings (via the underlying character lists). -/
def strEndsWith (s suffix : String) : Bool :=
  suffix.data.isSuffixOf s.data

theorem strEndsWith_append (a b : String) : strEndsWith (a ++ b) b = true := by
  rw [strEndsWith, String.data_append]
  exact List.isSuffixOf_iff_suffix.2 (List.suffix_append a.data b.data)

/-- C6 counterexample: requesting target format "ico" for "photo.jpg"
yields the client convertedName "photo.ico" — ending in ".ico", not in
".png" — even though the route's actual output format for "ico" is png. -/
theorem c6_counterexample :
    imageClientConvertedName ("photo.jpg") ("ico") = ("photo.ico") ∧
    strEndsWith (imageClientConvertedName ("photo.jpg") ("ico")) (".png") = false ∧
    actualFormatOf ("ico") = some ("png") := by
  refine ⟨by decide, by decide, by decide⟩

/-- C6 (amended): the client derives `convertedName` from the requested
target format — for target "ico" it always ends in ".ico" — while the
adapter's actual output format for "ico" is png and only the server's
Content-Disposition filename ends in ".png". -/
theorem c6_converted_name_uses_requested_format (name : String) :
    strEndsWith (imageClientConvertedName name ("ico")) (".ico") = true ∧
    actualFormatOf ("ico") = some ("png") ∧
    strEndsWith (routeFilename name ("png")) (".png") = true := by
  refine ⟨?_, by decide, ?_⟩
  · have h : imageClientConvertedName name ("ico") =
        firstDotStem name ++ (".ico") := by
      rw [imageClientConvertedName, String.append_assoc]
      rfl
    rw [h]
    exact strEndsWith_append _ _
  · have h : routeFilename name ("png") = stemLastDot name ++ (".png") := by
      rw [routeFilename, String.append_assoc]
      rfl
    rw [h]
    exact strEndsWith_append _ _

/-- Conversion result as consumed by `downloadAll`: the fields the archive
builder reads (`convertedName`, the output bytes `blob`); the bytes are an
opaque string stand-in, `downloadUrl`/`size` are presentational. -/
structure ConversionResult where
  originalName : String
  convertedName : String
  blob : String
deriving DecidableEq, Repr

/-- One `zip.file(name, content)` call: JSZip keys entries by name like a
JS object — an existing entry with the same name is replaced in place,
otherwise the entry is appended. -/
def zipFile (entries : List (String × String)) (name content : String) :
    List (String × String) :=
  if name ∈ entries.map Prod.fst then
    entries.map (fun e => if e.1 = name then (name, content) else e)
  else entries ++ [(name, content)]

/-- The archive built by `downloadAll`:
`for (const r of conversionResults) zip.file(r.convertedName, r.blob)`. -/
def buildZip (results : List ConversionResult) : List (String × String) :=
  results.foldl (fun acc r => zipFile acc r.convertedName r.blob) []

theorem zipFile_keys (entries : List (String × String)) (name content : String) :
    (zipFile entries name content).map Prod.fst =
      if name ∈ entries.map Prod.fst then entries.map Prod.fst
      else entries.map Prod.fst ++ [name] := by
  rw [zipFile]
  by_cases h : name ∈ entries.map Prod.fst
  · rw [if_pos h, if_pos h, List.map_map]
    apply List.map_congr_left
    intro e _
    by_cases he : e.1 = name
    · simp [he]
    · simp [he]
  · rw [if_neg h, if_neg h, List.map_append]
    rfl

theorem buildZip_fold_inv :
    ∀ (rs : List ConversionResult) (acc : List (String × String)),
    (acc.map Prod.fst).Nodup →
    ((rs.foldl (fun a r => zipFile a r.convertedName r.blob) acc).map Prod.fst).Nodup ∧
    (∀ x, x ∈ (rs.foldl (fun a r => zipFile a r.convertedName r.blob) acc).map Prod.fst ↔
      (x ∈ acc.map Prod.fst ∨ x ∈ rs.map (fun r => r.convertedName))) := by
  intro rs
  induction rs with
  | nil =>
    intro acc hnd
    exact ⟨hnd, fun x => by simp⟩
  | cons r rs' ih =>
    intro acc hnd
    have hkeys := zipFile_keys acc r.convertedName r.blob
    have hnd2 : ((zipFile acc r.convertedName r.blob).map Prod.fst).Nodup := by
      rw [hkeys]
      by_cases h : r.convertedName ∈ acc.map Prod.fst
      · rw [if_pos h]; exact hnd
      · rw [if_neg h, List.nodup_append]
        refine ⟨hnd, List.nodup_singleton _, ?_⟩
        intro x hx hx2
        rw [List.mem_singleton] at hx2
        subst hx2
        exact h hx
    have hmem : ∀ x, x ∈ (zipFile acc r.convertedName r.blob).map Prod.fst ↔
        (x ∈ acc.map Prod.fst ∨ x = r.convertedName) := by
      intro x
      rw [hkeys]
      by_cases h : r.convertedName ∈ acc.map Prod.fst
      · rw [if_pos h]
        constructor
        · exact Or.inl
        · rintro (hx | rfl)
          · exact hx
          · exact h
      · rw [if_neg h]
        simp
    obtain ⟨ihnd, ihmem⟩ := ih (zipFile acc r.convertedName r.blob) hnd2
    refine ⟨ihnd, fun x => ?_⟩
    rw [List.foldl_cons] at *
    rw [ihmem x, hmem x]
    simp only [List.map_cons, List.mem_cons]
    tauto

/-- C7 counterexample: two results whose convertedName collide produce an
archive with a single entry — the later blob silently overwrites the
earlier one — not two distinct entries. -/
theorem c7_counterexample :
    buildZip [⟨("a.jpg"), ("x.png"), ("B1")⟩, ⟨("b.jpg"), ("x.png"), ("B2")⟩] =
      [(("x.png"), ("B2"))] ∧
    (buildZip [⟨("a.jpg"), ("x.png"), ("B1")⟩,
      ⟨("b.jpg"), ("x.png"), ("B2")⟩]).length = 1 := by
  exact ⟨by decide, by decide⟩

/-- C7 (amended): the archive holds exactly one entry per distinct
convertedName — entry names are duplicate-free and are exactly the names
of the given results — and when two results collide the later result
overwrites the earlier entry (last write wins); no disambiguation occurs. -/
theorem c7_archive_one_entry_per_distinct_name :
    (∀ rs : List ConversionResult,
      ((buildZip rs).map Prod.fst).Nodup ∧
      (∀ x, x ∈ (buildZip rs).map Prod.fst ↔
        x ∈ rs.map (fun r => r.convertedName))) ∧
    (∀ r1 r2 : ConversionResult, r1.convertedName = r2.convertedName →
      buildZip [r1, r2] = [(r2.convertedName, r2.blob)]) := by
  constructor
  · intro rs
    have h := buildZip_fold_inv rs [] (by simp)
    refine ⟨h.1, fun x => ?_⟩
    have h2 := h.2 x
    simpa using h2
  · intro r1 r2 h
    simp [buildZip, zipFile, h]

/-- Witness for C7's amended theorem at a concrete collision: both results
named "y.png"; the archive keeps one entry holding the later content. -/
theorem c7_witness :
    buildZip [⟨("c.jpg"), ("y.png"), ("C1")⟩, ⟨("d.jpg"), ("y.png"), ("C2")⟩] =
      [(("y.png"), ("C2"))] :=
  c7_archive_one_entry_per_distinct_name.2
    ⟨("c.jpg"), ("y.png"), ("C1")⟩ ⟨("d.jpg"), ("y.png"), ("C2")⟩ rfl

/-- The two request fields of the uploaded file the route reads
(`file.name`, `file.size`); the content is processed only by sharp. -/
structure ReqFile where
  name : String
  size : Nat
deriving DecidableEq, Repr

/-- The multipart form fields read by the route's POST handler:
`formData.get('file')`, `formData.get('format')`, `formData.get('quality')`
(each absent field is `null`). -/
structure ConvRequest where
  file : Option ReqFile
  format : Option String
  quality : Option String
deriving DecidableEq, Repr

/-- Classification the route's catch block applies to any exception
thrown inside the try — whether while reading the input's metadata or
while converting: the two recognized message substrings
(`Input file contains unsupported image format`,
`Input image exceeds pixel limit`) and everything else. -/
inductive SharpFailure where
  | unsupportedInput
  | pixelLimit
  | other (msg : String)
deriving DecidableEq, Repr

/-- Outcome of the format-specific sharp conversion chain (the switch
branch), reached only when reading the metadata succeeded: the output
bytes, or a thrown failure. -/
inductive ConvOutcome where
  | ok (buf : String)
  | fail (failure : SharpFailure)
deriving DecidableEq, Repr

/-- HTTP response shapes the route produces: `NextResponse.json({error},
{status})` or a binary `Response` with Content-Type and the
Content-Disposition attachment filename. -/
inductive RouteResponse where
  | json (status : Nat) (error : String)
  | bytes (status : Nat) (contentType : String) (filename : String) (body : String)
deriving DecidableEq, Repr

def statusOf : RouteResponse → Nat
  | .json s _ => s
  | .bytes s _ _ _ => s

/-- The route's Content-Type value:
`image/${(actualFormat === 'jpg' || actualFormat === 'jpeg') ? 'jpeg' : actualFormat}`. -/
def contentTypeOf (actual : String) : String :=
  "image/" ++ (if actual = "jpg" ∨ actual = "jpeg" then "jpeg" else actual)

/-- The route's catch block: the two recognized failure messages map to
400/413, every other exception to a 500 JSON error. -/
def catchResponse : SharpFailure → RouteResponse
  | .unsupportedInput =>
    .json 400 ("Unsupported image format. Please try a different file.")
  | .pixelLimit => .json 413 ("Image is too large. Please use a smaller image.")
  | .other _ => .json 500 ("Failed to convert image. Please try again.")

/-- The optimized conversion route's POST handler: 400 for missing
file/format, 413 for bodies over 50MB; then — still inside the try and
before the format switch — `await sharpInstance.metadata()`: if it throws
(`meta = some failure`), the catch classifies the failure even when the
target format is unsupported; only then the switch, whose `default`
branch returns the unsupported-target 400; finally the conversion itself,
whose success returns the bytes with Content-Type and attachment filename
derived from `actualFormat` and whose throw lands in the same catch. -/
def POST (req : ConvRequest) (meta : Option SharpFailure) (conv : ConvOutcome) :
    RouteResponse :=
  match req.file with
  | none => .json 400 ("No file provided")
  | some f =>
    match req.format with
    | none => .json 400 ("No target format specified")
    | some fmt =>
      if 50 * 1024 * 1024 < f.size then
        .json 413 ("File too large. Maximum size is 50MB.")
      else
        match meta with
        | some failure => catchResponse failure
        | none =>
          match actualFormatOf fmt with
          | none => .json 400 ("Unsupported target format")
          | some af =>
            match conv with
            | .ok buf => .bytes 200 (contentTypeOf af) (routeFilename f.name af) buf
            | .fail failure => catchResponse failure

/-- C8 counterexample: two reachable paths refute the claim — a
well-formed request whose conversion throws the unsupported-input-format
message gets 400, not the 500 the claim requires for every internal
conversion failure; and a request with an unsupported target format whose
metadata read throws gets the catch's 500, not the claimed 400, because
`await sharpInstance.metadata()` runs before the format switch. -/
theorem c8_counterexample :
    POST ⟨some ⟨("a.jpg"), 100⟩, some ("png"), none⟩ none
        (.fail .unsupportedInput) =
      .json 400 ("Unsupported image format. Please try a different file.") ∧
    statusOf (POST ⟨some ⟨("a.jpg"), 100⟩, some ("png"), none⟩ none
      (.fail .unsupportedInput)) ≠ 500 ∧
    actualFormatOf ("xyz") = none ∧
    POST ⟨some ⟨("a.jpg"), 100⟩, some ("xyz"), none⟩ (some (.other ("boom")))
        (.ok ("B")) =
      .json 500 ("Failed to convert image. Please try again.") := by
  exact ⟨by decide, by decide, by decide, by decide⟩

/-- C8 (amended): the endpoint returns 400 for a missing file or missing
format and 413 for input over 50MB; an exception while reading the input
metadata — thrown before the format switch — is classified by the catch
block (400 for the unsupported-input-format message, 413 for the
pixel-limit message, 500 otherwise) even when the target format is
unsupported; when the metadata read succeeds, an unsupported target
format yields 400; a conversion failure is classified by the same catch,
with 500 for any unrecognized message; and success returns the converted
bytes with Content-Type image/<actualFormat> (jpg spelled jpeg) and the
Content-Disposition attachment filename. -/
theorem c8_route_response_taxonomy (req : ConvRequest)
    (meta : Option SharpFailure) (conv : ConvOutcome) :
    (req.file = none → POST req meta conv = .json 400 ("No file provided")) ∧
    (∀ f, req.file = some f → req.format = none →
      POST req meta conv = .json 400 ("No target format specified")) ∧
    (∀ f fmt, req.file = some f → req.format = some fmt →
      50 * 1024 * 1024 < f.size →
      POST req meta conv = .json 413 ("File too large. Maximum size is 50MB.")) ∧
    (∀ f fmt failure, req.file = some f → req.format = some fmt →
      f.size ≤ 50 * 1024 * 1024 → meta = some failure →
      POST req meta conv = catchResponse failure) ∧
    (∀ f fmt, req.file = some f → req.format = some fmt →
      f.size ≤ 50 * 1024 * 1024 → meta = none → actualFormatOf fmt = none →
      POST req meta conv = .json 400 ("Unsupported target format")) ∧
    (∀ f fmt af buf, req.file = some f → req.format = some fmt →
      f.size ≤ 50 * 1024 * 1024 → meta = none → actualFormatOf fmt = some af →
      conv = .ok buf →
      POST req meta conv =
        .bytes 200 (contentTypeOf af) (routeFilename f.name af) buf) ∧
    (∀ f fmt af msg, req.file = some f → req.format = some fmt →
      f.size ≤ 50 * 1024 * 1024 → meta = none → actualFormatOf fmt = some af →
      conv = .fail (.other msg) →
      POST req meta conv = .json 500 ("Failed to convert image. Please try again.")) ∧
    (∀ f fmt af, req.file = some f → req.format = some fmt →
      f.size ≤ 50 * 1024 * 1024 → meta = none → actualFormatOf fmt = some af →
      conv = .fail .unsupportedInput →
      POST req meta conv =
        .json 400 ("Unsupported image format. Please try a different file.")) ∧
    (∀ f fmt af, req.file = some f → req.format = some fmt →
      f.size ≤ 50 * 1024 * 1024 → meta = none → actualFormatOf fmt = some af →
      conv = .fail .pixelLimit →
      POST req meta conv =
        .json 413 ("Image is too large. Please use a smaller image.")) := by
  obtain ⟨file, format, quality⟩ := req
  refine ⟨?_, ?_, ?_, ?_, ?_, ?_, ?_, ?_, ?_⟩
  · rintro rfl
    rfl
  · rintro f rfl rfl
    rfl
  · rintro f fmt rfl rfl hsize
    simp [POST, hsize]
  · rintro f fmt failure rfl rfl hsize rfl
    simp [POST, Nat.not_lt.2 hsize]
  · rintro f fmt rfl rfl hsize rfl haf
    simp [POST, Nat.not_lt.2 hsize, haf]
  · rintro f fmt af buf rfl rfl hsize rfl haf rfl
    simp [POST, Nat.not_lt.2 hsize, haf]
  · rintro f fmt af msg rfl rfl hsize rfl haf rfl
    simp [POST, Nat.not_lt.2 hsize, haf, catchResponse]
  · rintro f fmt af rfl rfl hsize rfl haf rfl
    simp [POST, Nat.not_lt.2 hsize, haf, catchResponse]
  · rintro f fmt af rfl rfl hsize rfl haf rfl
    simp [POST, Nat.not_lt.2 hsize, haf, catchResponse]

/-- Witness for C8 at a concrete successful request: target "ico" on
"photo.jpg" with readable metadata yields the bytes with Content-Type
image/png and attachment filename photo.png. -/
theorem c8_witness :
    POST ⟨some ⟨("photo.jpg"), 100⟩, some ("ico"), none⟩ none (.ok ("BYTES")) =
      .bytes 200 ("image/png") ("photo.png") ("BYTES") := by
  have h := (c8_route_response_taxonomy
      ⟨some ⟨("photo.jpg"), 100⟩, some ("ico"), none⟩ none (.ok ("BYTES"))).2.2.2.2.2.1
    ⟨("photo.jpg"), 100⟩ ("ico") ("png") ("BYTES") rfl rfl (by decide) rfl (by decide) rfl
  rw [h]
  decide

/-- The module-level audio engine cell: the `ffmpegRef` React ref and a
count of `new FFmpeg()` constructions performed so far (instances are
numbered by creation order). -/
structure FfmpegState where
  ffmpegRef : Option Nat
  created : Nat
deriving DecidableEq, Repr

/-- Progress of one `ensureFFmpeg()` call.  The only suspension point of
the body is `await ffmpeg.load()`: before it the call has checked the ref
and (if the ref was empty) constructed a fresh engine; after it the call
stores its own engine into the ref and returns. -/
inductive CallPhase where
  | start
  | loading (inst : Nat)
  | done
deriving DecidableEq, Repr

/-- One cooperative step of call `c`: from `start`, the guard
`if (ffmpegRef.current) return` either finishes the call or constructs a
new engine and suspends at `await ffmpeg.load()`; from `loading`, the call
resumes and runs `ffmpegRef.current = ffmpeg`. -/
def ensureStep (s : FfmpegState × List CallPhase) (c : Nat) :
    FfmpegState × List CallPhase :=
  match s.2[c]? with
  | some .start =>
    match s.1.ffmpegRef with
    | some _ => (s.1, s.2.set c .done)
    | none =>
      ({ ffmpegRef := s.1.ffmpegRef, created := s.1.created + 1 },
        s.2.set c (.loading s.1.created))
  | some (.loading inst) =>
    ({ ffmpegRef := some inst, created := s.1.created }, s.2.set c .done)
  | _ => s

/-- Run `k` concurrent `ensureFFmpeg()` calls under a cooperative schedule
(the list of call indices taking their next step). -/
def runEnsure (k : Nat) (sched : List Nat) : FfmpegState × List CallPhase :=
  sched.foldl ensureStep (⟨none, 0⟩, List.replicate k .start)

/-- C9: evaluation at the failing interleaving — two tasks of the first
window call `ensureFFmpeg()` concurrently; both pass the empty-ref guard
before either load completes, so two engine instances are constructed (the
second overwrites the ref), while the same two calls run back-to-back
construct only one. -/
theorem c9_concurrent_first_use_creates_two_instances :
    (runEnsure 2 [0, 1, 0, 1]).1.created = 2 ∧
    (runEnsure 2 [0, 1, 0, 1]).1.ffmpegRef = some 1 ∧
    (runEnsure 2 [0, 0, 1, 1]).1.created = 1 ∧
    (runEnsure 2 [0, 0, 1, 1]).1.ffmpegRef = some 0 := by
  exact ⟨by decide, by decide, by decide, by decide⟩

/-- Conversion of a possibly-missing form field to the string JS
`parseInt` actually sees (`parseInt(null)` coerces to the string "null"). -/
def fieldAsString (field : Option String) : String :=
  match field with
  | none => ("null")
  | some s => s

def digitsVal (cs : List Char) : Nat :=
  cs.foldl (fun acc c => acc * 10 + (c.toNat - 48)) 0

/-- JS `parseInt(s)` for decimal inputs: skip leading whitespace, optional
sign, then the longest digit prefix; `none` is NaN (no digits).  The
hexadecimal `0x` autodetection of full JS parseInt is not modelled: the
quality field only ever carries decimal text. -/
def jsParseInt (s : String) : Option Int :=
  let cs := s.data.dropWhile Char.isWhitespace
  let signAndRest : Bool × List Char :=
    match cs with
    | '-' :: rest => (true, rest)
    | '+' :: rest => (false, rest)
    | _ => (false, cs)
  let ds := signAndRest.2.takeWhile Char.isDigit
  if ds = [] then none
  else if signAndRest.1 then some (-(Int.ofNat (digitsVal ds)))
  else some (Int.ofNat (digitsVal ds))

/-- The route's quality computation
`parseInt(formData.get('quality') as string) || 80`: NaN and 0 are falsy,
so both fall back to 80. -/
def qualityOrDefault (field : Option String) : Int :=
  match jsParseInt (fieldAsString field) with
  | none => 80
  | some q => if q = 0 then 80 else q

/-- The clamp applied before the quality is handed to sharp in the
optimized route: `Math.max(1, Math.min(100, quality))`. -/
def clampQuality (q : Int) : Int :=
  max 1 (min 100 q)

/-- C10: an absent quality field, a non-numeric one, and one parsing to 0
all make the conversion proceed with quality 80 rather than rejecting the
request, and the optimized route's clamp always lands in [1, 100]. -/
theorem c10_quality_default_and_clamp :
    qualityOrDefault none = 80 ∧
    qualityOrDefault (some ("0")) = 80 ∧
    (∀ s, jsParseInt s = none → qualityOrDefault (some s) = 80) ∧
    (∀ q, 1 ≤ clampQuality q ∧ clampQuality q ≤ 100) := by
  refine ⟨by decide, by decide, ?_, ?_⟩
  · intro s h
    simp [qualityOrDefault, fieldAsString, h]
  · intro q
    constructor <;> simp [clampQuality]

/-- Witness for C10: the non-numeric field "abc" falls back to 80, and the
out-of-range quality -5 is clamped into [1, 100]. -/
theorem c10_witness :
    qualityOrDefault (some ("abc")) = 80 ∧
    1 ≤ clampQuality (-5) ∧ clampQuality (-5) ≤ 100 :=
  ⟨c10_quality_default_and_clamp.2.2.1 ("abc") (by decide),
    (c10_quality_default_and_clamp.2.2.2 (-5)).1,
    (c10_quality_default_and_clamp.2.2.2 (-5)).2⟩
